import Mathlib

/-!
Verification of the reliability engine (stress / recovery / resource monitoring)
of EduTestSW, embedded shallowly from `src/assessments/reliability.py`.

Floats are modelled as rationals, Python ints as integers, dict-shaped records
as structures, and the HTTP / psutil effects as explicit outcome parameters
(`TransportOutcome`, `ProbeResult`, `TickReads`).  Python exceptions become
`Except` values where the source catches them, and time is a monotone clock
sequence passed to the timed loop.
-/

namespace Reliability

/-- Banker rounding on rationals, the behaviour of Python `round`:
round half to even, otherwise to the nearest integer. -/
def pyRound (q : ℚ) : ℤ :=
  let f := ⌊q⌋
  let frac := q - f
  if frac < 1/2 then f
  else if 1/2 < frac then f + 1
  else if f % 2 = 0 then f else f + 1

/-- Embedding of `_percentile` from the source: sort the values, take the
element at index `round(p * (n - 1))` clamped into `[0, n - 1]`; `0.0` for an
empty list. -/
def _percentile (values : List ℚ) (p : ℚ) : ℚ :=
  match values with
  | [] => 0
  | v :: vs =>
    let s := (v :: vs).insertionSort (· ≤ ·)
    let k := max 0 (min (((v :: vs).length : ℤ) - 1) (pyRound (p * (((v :: vs).length : ℤ) - 1))))
    s.getD k.toNat 0

/-- Formalisation of the SPEC wording for `percentile` (a linear-interpolated
order statistic), defined only to compare with the source `_percentile`. -/
def percentile_interp (values : List ℚ) (p : ℚ) : ℚ :=
  match values with
  | [] => 0
  | v :: vs =>
    let s := (v :: vs).insertionSort (· ≤ ·)
    let n : ℤ := (v :: vs).length
    let r := p * ((n : ℚ) - 1)
    let lo := max 0 (min (n - 1) ⌊r⌋)
    let hi := max 0 (min (n - 1) ⌈r⌉)
    s.getD lo.toNat 0 + (r - ⌊r⌋) * (s.getD hi.toNat 0 - s.getD lo.toNat 0)

/-- Python `max` over a non-empty list (`0` only as an unreachable default for
the empty list, which Python would reject). -/
def pyMax : List ℚ → ℚ
  | [] => 0
  | x :: xs => xs.foldl max x

/-- Python `min` over a non-empty list (`0` only as an unreachable default for
the empty list, which Python would reject). -/
def pyMin : List ℚ → ℚ
  | [] => 0
  | x :: xs => xs.foldl min x

/-- Metrics dictionary returned by `_stress_phase` (resource series are
modelled separately). -/
structure StressMetrics where
  total : ℕ
  errors : ℕ
  error_rate : ℚ
  latency_avg_ms : ℚ
  latency_p50_ms : ℚ
  latency_p95_ms : ℚ
  latency_p99_ms : ℚ
deriving DecidableEq, Repr

/-- Embedding of the verdict computation in `emit_stress_block`:
`pass_latency = (p95 <= sla_p95) if sla_p95 > 0 else True`,
`pass_error = error_rate <= max_err`, status PASS iff both. -/
def emit_stress_status (m : StressMetrics) (sla_ms_p95 max_error_rate : ℚ) : String :=
  let pass_latency : Bool := if 0 < sla_ms_p95 then decide (m.latency_p95_ms ≤ sla_ms_p95) else true
  let pass_error : Bool := decide (m.error_rate ≤ max_error_rate)
  if pass_latency && pass_error then "PASS" else "FAIL"

/-- Result dictionary of `_recover_phase` (`within_sla` is `None`, `True` or
`False` in Python, hence `Option Bool`). -/
structure RecoveryResult where
  recovery_checked : Bool
  within_sla : Option Bool
  last_latency_ms : Option ℚ
  seconds_waited : ℤ
deriving DecidableEq, Repr

/-- Embedding of the verdict computation in `emit_recovery_block`: SKIP when
`recovery_checked` is falsy, otherwise PASS exactly when `within_sla is True`,
else FAIL. -/
def emit_recovery_status (rec : RecoveryResult) : String :=
  if !rec.recovery_checked then "SKIP"
  else if rec.within_sla = some true then "PASS" else "FAIL"

/-- Outcome of one health probe (`client.get(health_url)` plus body parsing) in
`_recover_phase`: either the GET raised, or it returned a status code, the
parsed `status` field of the body (`none` when absent or unparseable) and a
measured latency. -/
inductive ProbeResult where
  | exn : ProbeResult
  | ok (status_code : ℕ) (body_status : Option String) (latency_ms : ℚ) : ProbeResult
deriving DecidableEq, Repr

/-- Success condition of a probe in `_recover_phase`: HTTP 200, body status
field equal to the healthy sentinel, and latency within the recovery SLA. -/
def probeQualifies (sla_ms : ℤ) : ProbeResult → Prop
  | .exn => False
  | .ok code body lat => code = 200 ∧ body = some "ok" ∧ lat ≤ (sla_ms : ℚ)

instance (sla_ms : ℤ) (pr : ProbeResult) : Decidable (probeQualifies sla_ms pr) := by
  unfold probeQualifies
  cases pr <;> infer_instance

/-- Latency recorded by a probe: `none` for an exception (the source resets
`last_latency` to `None`), the measured latency otherwise. -/
def probeLat : ProbeResult → Option ℚ
  | .exn => none
  | .ok _ _ lat => some lat

/-- Embedding of the polling loop of `_recover_phase`.  The `fuel` argument is
only a termination bound: with `poll_interval ≥ 1` the wrapper below passes
enough fuel that the fuel-exhaustion branch is unreachable.  `waited` is reset
to `none` on an exception exactly as `last_latency = None` is in the source. -/
def recoverLoopAux (probes : ℕ → ProbeResult) (poll_interval max_recovery_sec sla_ms : ℤ) :
    ℕ → ℕ → ℤ → Option ℚ → RecoveryResult
  | 0, _, waited, last_latency => ⟨true, some false, last_latency, waited⟩
  | fuel+1, k, waited, last_latency =>
    if waited ≤ max_recovery_sec then
      match probes k with
      | .exn =>
          recoverLoopAux probes poll_interval max_recovery_sec sla_ms fuel (k+1)
            (waited + poll_interval) none
      | .ok code body lat =>
          if code = 200 ∧ body = some "ok" ∧ lat ≤ (sla_ms : ℚ) then
            ⟨true, some true, some lat, waited⟩
          else
            recoverLoopAux probes poll_interval max_recovery_sec sla_ms fuel (k+1)
              (waited + poll_interval) (some lat)
    else ⟨true, some false, last_latency, waited⟩

/-- Embedding of `_recover_phase`: with a falsy health URL (absent or empty) it
returns the unchecked record without polling; otherwise it polls until a probe
qualifies or the wait budget is exhausted.  The initial best-effort POST to the
recovery trigger has no effect on the returned record and is not modelled. -/
def _recover_phase (health_url : Option String) (probes : ℕ → ProbeResult)
    (poll_interval max_recovery_sec sla_ms : ℤ) : RecoveryResult :=
  match health_url with
  | none => ⟨false, none, none, 0⟩
  | some url =>
    if url = "" then ⟨false, none, none, 0⟩
    else
      recoverLoopAux probes poll_interval max_recovery_sec sla_ms
        (max_recovery_sec.toNat + 2) 0 0 none

/-- Transport-layer outcome of the single HTTP exchange inside the
`try` of `_shoot_once`: either a response arrived (status code and measured
latency), or some transport/timeout exception was raised after `elapsed_ms`
milliseconds with message `msg`. -/
inductive TransportOutcome where
  | response (status_code : ℕ) (latency_ms : ℚ) : TransportOutcome
  | exn (elapsed_ms : ℚ) (msg : String) : TransportOutcome
deriving DecidableEq, Repr

/-- Tuple returned by `_shoot_once`:
(succeeded, latency_ms, status_code, error message). -/
structure RequestOutcome where
  succeeded : Bool
  latency_ms : ℚ
  status_code : ℕ
  error : String
deriving DecidableEq, Repr

/-- Embedding of `_shoot_once` for a well-formed request descriptor, as a
total function of the transport outcome: a completed exchange yields
`(code ∈ success_statuses, latency, code, "")`; a raised transport/timeout
exception is caught and yields `(false, elapsed, 0, msg)`.  Totality of this
function is the embedding of the guarantee that no exception propagates. -/
def _shoot_once (success_statuses : List ℕ) (t : TransportOutcome) : RequestOutcome :=
  match t with
  | .response code lat => ⟨decide (code ∈ success_statuses), lat, code, ""⟩
  | .exn lat msg => ⟨false, lat, 0, msg⟩

/-- Embedding of the timed loop of `_stress_phase`.  `shot i j` is the
(ok, latency) outcome of the `j`-th request of iteration `i` (the fields of
`_shoot_once` results the loop consumes), `clock i` the monotone
`time.perf_counter()` value at the `i`-th loop check, and `endTime` the value
`start + duration_sec`.  Each iteration schedules `range(rps)` shots and
gathers them all before the next check.  `fuel` bounds the recursion; since
real time eventually passes `endTime`, callers pick it large enough. -/
def stressLoopAux (rps : ℤ) (shot : ℕ → ℕ → Bool × ℚ) (clock : ℕ → ℚ) (endTime : ℚ) :
    ℕ → ℕ → List (Bool × ℚ)
  | 0, _ => []
  | fuel+1, i =>
    if clock i < endTime then
      ((List.range rps.toNat).map (shot i)) ++ stressLoopAux rps shot clock endTime fuel (i+1)
    else []

/-- Error counting of the result loop of `_stress_phase`
(`if not ok: errors += 1`). -/
def errorsOf (outcomes : List (Bool × ℚ)) : ℕ :=
  (outcomes.filter (fun o => !o.1)).length

/-- Aggregation tail of `_stress_phase`: totals, error rate
(`errors / total` when `total` is nonzero, else `0.0`), mean and percentile
latencies over the gathered outcomes. -/
def stressMetricsOf (outcomes : List (Bool × ℚ)) : StressMetrics :=
  let latencies := outcomes.map Prod.snd
  let total := outcomes.length
  let errors := errorsOf outcomes
  { total := total
    errors := errors
    error_rate := if total = 0 then 0 else (errors : ℚ) / (total : ℚ)
    latency_avg_ms := if latencies.length = 0 then 0 else latencies.sum / (latencies.length : ℚ)
    latency_p50_ms := _percentile latencies (1/2)
    latency_p95_ms := _percentile latencies (19/20)
    latency_p99_ms := _percentile latencies (99/100) }

/-- Embedding of the configuration validation performed by `check` before the
stress phase: the only rejected configuration is one whose `mode` is neither
`stress` nor `load` — no other field (target_url, duration_sec, rps) is
examined up front. -/
def check_mode_error (mode : Option String) : Option String :=
  if mode = some "stress" ∨ mode = some "load" then none
  else some "[RELIABILITY] Error: mode must be stress or load."

/-- Embedding of the `push` closure of `_sample_resources_loop` for a present
value: append, then `del arr[: len(arr) - series_limit]` when the series has
grown past the cap. -/
def push (series_limit : ℕ) (arr : List ℚ) (v : ℚ) : List ℚ :=
  let a := arr ++ [v]
  if series_limit < a.length then a.drop (a.length - series_limit) else a

/-- The `push` closure on an optional value: `None` is skipped. -/
def pushOpt (series_limit : ℕ) (arr : List ℚ) (v : Option ℚ) : List ℚ :=
  match v with
  | none => arr
  | some x => push series_limit arr x

/-- The `out` dictionary of `_sample_resources_loop`, with its six fixed
series keys. -/
structure SeriesMap where
  system_cpu_pct : List ℚ
  process_cpu_pct : List ℚ
  process_mem_mb : List ℚ
  process_threads : List ℚ
  net_sent_kb : List ℚ
  net_recv_kb : List ℚ
deriving DecidableEq, Repr

/-- The series dictionary before any tick. -/
def emptySeries : SeriesMap := ⟨[], [], [], [], [], []⟩

/-- Results of the psutil reads attempted on one tick of
`_sample_resources_loop`, each an `Except` since each call may raise:
system CPU, whether the target process is resolved and running (the process
reads only happen in that case), the three per-process reads, the network
counters read (as the derived sent/recv rates), and whether a previous
counter value exists (`last_net`), without which the rates stay `None`. -/
structure TickReads where
  sys_cpu : Except String ℚ
  proc_running : Bool
  p_cpu : Except String ℚ
  p_mem_mb : Except String ℚ
  p_threads : Except String ℚ
  net : Except String (ℚ × ℚ)
  have_last_net : Bool
deriving Repr

/-- Whether an `Except` is the error case. -/
def isErr {α : Type} : Except String α → Bool
  | .error _ => true
  | .ok _ => false

/-- Embedding of one iteration of the `while` body of
`_sample_resources_loop`.  The whole body sits inside one
`try/except Exception: pass`, and every read precedes every `push` call, so a
raising read abandons the entire tick (no series is appended); reads that
merely yield `None` (process not resolved, no previous network counters) skip
only their own metric. -/
def sampleTick (series_limit : ℕ) (r : TickReads) (out : SeriesMap) : SeriesMap :=
  match r.sys_cpu with
  | .error _ => out
  | .ok sys_cpu_v =>
    let proc_reads : Except String (Option ℚ × Option ℚ × Option ℚ) :=
      if r.proc_running then
        match r.p_cpu with
        | .error e => .error e
        | .ok c =>
          match r.p_mem_mb with
          | .error e => .error e
          | .ok m =>
            match r.p_threads with
            | .error e => .error e
            | .ok t => .ok (some c, some m, some t)
      else .ok (none, none, none)
    match proc_reads with
    | .error _ => out
    | .ok (p_cpu_v, p_mem_v, p_thr_v) =>
      match r.net with
      | .error _ => out
      | .ok (sent_rate, recv_rate) =>
        let sent_kb := if r.have_last_net then some sent_rate else none
        let recv_kb := if r.have_last_net then some recv_rate else none
        { system_cpu_pct := push series_limit out.system_cpu_pct sys_cpu_v
          process_cpu_pct := pushOpt series_limit out.process_cpu_pct p_cpu_v
          process_mem_mb := pushOpt series_limit out.process_mem_mb p_mem_v
          process_threads := pushOpt series_limit out.process_threads p_thr_v
          net_sent_kb := pushOpt series_limit out.net_sent_kb sent_kb
          net_recv_kb := pushOpt series_limit out.net_recv_kb recv_kb }

/-- Whether some read that the tick actually performs raises (process reads
count only when the process is resolved and running). -/
def tickReadFails (r : TickReads) : Bool :=
  isErr r.sys_cpu ||
    (r.proc_running && (isErr r.p_cpu || isErr r.p_mem_mb || isErr r.p_threads)) ||
    isErr r.net

theorem recoverLoopAux_checked (probes : ℕ → ProbeResult)
    (poll_interval max_recovery_sec sla_ms : ℤ) :
    ∀ (fuel k : ℕ) (waited : ℤ) (last_latency : Option ℚ),
      (recoverLoopAux probes poll_interval max_recovery_sec sla_ms
        fuel k waited last_latency).recovery_checked = true := by
  intro fuel
  induction fuel with
  | zero => intro k waited last_latency; rfl
  | succ n ih =>
    intro k waited last_latency
    unfold recoverLoopAux
    split
    · split
      · exact ih _ _ _
      · split
        · rfl
        · exact ih _ _ _
    · rfl

/-- C1.  Stress judgment: the verdict is PASS iff (no p95 SLA is configured,
i.e. `sla_ms_p95 ≤ 0`, or `latency_p95_ms ≤ sla_ms_p95`) and
`error_rate ≤ max_error_rate`; the only other verdict is FAIL, and a run with
`error_rate = 1` is judged FAIL against any `max_error_rate < 1`. -/
theorem stress_verdict_characterisation (m : StressMetrics) (sla_ms_p95 max_error_rate : ℚ) :
    (emit_stress_status m sla_ms_p95 max_error_rate = "PASS" ↔
      ((sla_ms_p95 ≤ 0 ∨ m.latency_p95_ms ≤ sla_ms_p95) ∧ m.error_rate ≤ max_error_rate)) ∧
    (emit_stress_status m sla_ms_p95 max_error_rate = "PASS" ∨
      emit_stress_status m sla_ms_p95 max_error_rate = "FAIL") ∧
    (m.error_rate = 1 → max_error_rate < 1 →
      emit_stress_status m sla_ms_p95 max_error_rate = "FAIL") := by
  by_cases h : 0 < sla_ms_p95
  · have hn : ¬ sla_ms_p95 ≤ 0 := not_le.mpr h
    refine ⟨?_, ?_, ?_⟩
    · simp [emit_stress_status, h, hn]
    · simp only [emit_stress_status, h, if_true]
      split <;> simp
    · intro h1 h2
      simp [emit_stress_status, h, h1, not_le.mpr h2]
  · have hle : sla_ms_p95 ≤ 0 := not_lt.mp h
    refine ⟨?_, ?_, ?_⟩
    · simp [emit_stress_status, h, hle]
    · simp only [emit_stress_status, h, if_false]
      split <;> simp
    · intro h1 h2
      simp [emit_stress_status, h, h1, not_le.mpr h2]

theorem stress_verdict_characterisation_witness :
    emit_stress_status ⟨20, 20, 1, 5, 5, 5, 5⟩ 0 (1/2) = "FAIL" :=
  (stress_verdict_characterisation ⟨20, 20, 1, 5, 5, 5, 5⟩ 0 (1/2)).2.2 rfl (by norm_num)

/-- C2.  Recovery judgment: the verdict is SKIP exactly when
`recovery_checked` is false; when checked, PASS iff `within_sla = some true`
and FAIL otherwise; an unconfigured health URL yields the unchecked record
(`within_sla` unknown, zero wait) and hence SKIP, while any configured
non-empty health URL yields a checked record. -/
theorem recovery_verdict_characterisation :
    (∀ rec : RecoveryResult, emit_recovery_status rec = "SKIP" ↔ rec.recovery_checked = false) ∧
    (∀ rec : RecoveryResult, rec.recovery_checked = true →
      ((emit_recovery_status rec = "PASS" ↔ rec.within_sla = some true) ∧
       (rec.within_sla ≠ some true → emit_recovery_status rec = "FAIL"))) ∧
    (∀ (probes : ℕ → ProbeResult) (poll_interval max_recovery_sec sla_ms : ℤ),
      _recover_phase none probes poll_interval max_recovery_sec sla_ms =
        ⟨false, none, none, 0⟩ ∧
      emit_recovery_status
        (_recover_phase none probes poll_interval max_recovery_sec sla_ms) = "SKIP") ∧
    (∀ (url : String) (probes : ℕ → ProbeResult) (poll_interval max_recovery_sec sla_ms : ℤ),
      url ≠ "" →
      (_recover_phase (some url) probes poll_interval max_recovery_sec
        sla_ms).recovery_checked = true) := by
  refine ⟨?_, ?_, ?_, ?_⟩
  · intro rec
    rcases rec with ⟨checked, within, lastLat, waited⟩
    cases checked
    · simp [emit_recovery_status]
    · simp only [emit_recovery_status]
      split
      · simp_all
      · split <;> simp_all
  · intro rec hc
    rcases rec with ⟨checked, within, lastLat, waited⟩
    cases checked
    · cases hc
    · constructor
      · simp only [emit_recovery_status]
        split <;> simp_all
      · intro hw
        simp [emit_recovery_status, hw]
  · intro probes poll_interval max_recovery_sec sla_ms
    exact ⟨rfl, rfl⟩
  · intro url probes poll_interval max_recovery_sec sla_ms hurl
    simp only [_recover_phase, if_neg hurl]
    exact recoverLoopAux_checked _ _ _ _ _ _ _ _

theorem recovery_verdict_characterisation_witness :
    emit_recovery_status ⟨true, some false, none, 5⟩ = "FAIL" :=
  (recovery_verdict_characterisation.2.1 ⟨true, some false, none, 5⟩ rfl).2 (by decide)

theorem recoverLoopAux_succ (probes : ℕ → ProbeResult)
    (poll_interval max_recovery_sec sla_ms : ℤ) (fuel k : ℕ) (waited : ℤ)
    (last_latency : Option ℚ) :
    recoverLoopAux probes poll_interval max_recovery_sec sla_ms (fuel+1) k waited last_latency =
      if waited ≤ max_recovery_sec then
        if probeQualifies sla_ms (probes k) then
          ⟨true, some true, probeLat (probes k), waited⟩
        else
          recoverLoopAux probes poll_interval max_recovery_sec sla_ms fuel (k+1)
            (waited + poll_interval) (probeLat (probes k))
      else ⟨true, some false, last_latency, waited⟩ := by
  cases hpr : probes k with
  | exn => simp [recoverLoopAux, hpr, probeQualifies, probeLat]
  | ok code body lat =>
    by_cases hq : code = 200 ∧ body = some "ok" ∧ lat ≤ (sla_ms : ℚ)
    · simp [recoverLoopAux, hpr, probeQualifies, probeLat, hq]
    · simp [recoverLoopAux, hpr, probeQualifies, probeLat, hq]

theorem recoverLoopAux_first_qual (probes : ℕ → ProbeResult)
    (poll_interval max_recovery_sec sla_ms : ℤ) (hpi : 1 ≤ poll_interval) :
    ∀ (j fuel k : ℕ) (waited : ℤ) (last_latency : Option ℚ),
      (∀ i, i < j → ¬ probeQualifies sla_ms (probes (k + i))) →
      probeQualifies sla_ms (probes (k + j)) →
      waited + j * poll_interval ≤ max_recovery_sec →
      j < fuel →
      recoverLoopAux probes poll_interval max_recovery_sec sla_ms fuel k waited last_latency =
        ⟨true, some true, probeLat (probes (k + j)), waited + j * poll_interval⟩ := by
  intro j
  induction j with
  | zero =>
    intro fuel k waited last_latency _ hq hle hfuel
    obtain ⟨f, rfl⟩ : ∃ f, fuel = f + 1 := ⟨fuel - 1, by omega⟩
    rw [recoverLoopAux_succ]
    rw [Nat.add_zero] at hq
    have hle0 : waited ≤ max_recovery_sec := by
      have : waited + (0 : ℕ) * poll_interval = waited := by push_cast; ring
      rw [this] at hle; exact hle
    rw [if_pos hle0, if_pos hq]
    simp
  | succ n ih =>
    intro fuel k waited last_latency hnone hq hle hfuel
    obtain ⟨f, rfl⟩ : ∃ f, fuel = f + 1 := ⟨fuel - 1, by omega⟩
    rw [recoverLoopAux_succ]
    have h0 : ¬ probeQualifies sla_ms (probes k) := by
      have := hnone 0 (Nat.succ_pos n)
      simpa using this
    have hnpos : (0 : ℤ) ≤ (n + 1 : ℕ) * poll_interval := by positivity
    have hwle : waited ≤ max_recovery_sec := by linarith
    rw [if_pos hwle, if_neg h0]
    have hstep := ih f (k+1) (waited + poll_interval) (probeLat (probes k))
      (fun i hi => by
        have := hnone (i+1) (Nat.succ_lt_succ hi)
        have harr : k + 1 + i = k + (i + 1) := by omega
        rw [harr]; exact this)
      (by have harr : k + 1 + n = k + (n + 1) := by omega
          rw [harr]; exact hq)
      (by push_cast at hle ⊢; linarith)
      (Nat.lt_of_succ_lt_succ hfuel)
    rw [hstep]
    have harr : k + 1 + n = k + (n + 1) := by omega
    have harith : waited + poll_interval + (n : ℕ) * poll_interval =
        waited + ((n + 1 : ℕ) : ℤ) * poll_interval := by push_cast; ring
    rw [harr, harith]

theorem recoverLoopAux_timeout (probes : ℕ → ProbeResult)
    (poll_interval max_recovery_sec sla_ms : ℤ) (hpi : 1 ≤ poll_interval)
    (hnone : ∀ i, ¬ probeQualifies sla_ms (probes i)) :
    ∀ (fuel k : ℕ) (waited : ℤ) (last_latency : Option ℚ),
      max_recovery_sec < waited + fuel * poll_interval →
      ((recoverLoopAux probes poll_interval max_recovery_sec sla_ms
          fuel k waited last_latency).within_sla = some false ∧
       (waited ≤ max_recovery_sec →
          max_recovery_sec < (recoverLoopAux probes poll_interval max_recovery_sec sla_ms
            fuel k waited last_latency).seconds_waited ∧
          (recoverLoopAux probes poll_interval max_recovery_sec sla_ms
            fuel k waited last_latency).seconds_waited ≤ max_recovery_sec + poll_interval) ∧
       (max_recovery_sec < waited →
          (recoverLoopAux probes poll_interval max_recovery_sec sla_ms
            fuel k waited last_latency).seconds_waited = waited)) := by
  intro fuel
  induction fuel with
  | zero =>
    intro k waited last_latency hlt
    have hlt0 : max_recovery_sec < waited := by push_cast at hlt; linarith
    exact ⟨rfl, fun hle => absurd hlt0 (not_lt.mpr hle), fun _ => rfl⟩
  | succ n ih =>
    intro k waited last_latency hlt
    rw [recoverLoopAux_succ]
    by_cases hw : waited ≤ max_recovery_sec
    · rw [if_pos hw, if_neg (hnone k)]
      have hrec := ih (k+1) (waited + poll_interval) (probeLat (probes k))
        (by push_cast at hlt ⊢; linarith)
      refine ⟨hrec.1, fun _ => ?_, fun hgt => absurd hw (not_le.mpr hgt)⟩
      by_cases hw2 : waited + poll_interval ≤ max_recovery_sec
      · exact hrec.2.1 hw2
      · have heq := hrec.2.2 (not_le.mp hw2)
        rw [heq]
        exact ⟨not_le.mp hw2, by linarith⟩
    · rw [if_neg hw]
      exact ⟨rfl, fun hle => absurd hle hw, fun _ => rfl⟩

/-- C3.  Recovery polling contract: with a health URL configured, a positive
poll interval and a non-negative wait budget, the phase returns
`within_sla = true` with the qualifying latency as soon as some probe returns
HTTP 200 with a healthy body within the SLA (waiting `j * poll_interval`
seconds when the first qualifier is probe `j`, in particular `0` when the
first probe qualifies), and if no probe ever qualifies it returns
`within_sla = false` with `seconds_waited` within one poll interval above
`max_recovery_sec`. -/
theorem recover_polling_contract (probes : ℕ → ProbeResult)
    (poll_interval max_recovery_sec sla_ms : ℤ) (url : String)
    (hurl : url ≠ "") (hpi : 1 ≤ poll_interval) (hmax : 0 ≤ max_recovery_sec) :
    (∀ lat : ℚ, probes 0 = .ok 200 (some "ok") lat → lat ≤ (sla_ms : ℚ) →
      _recover_phase (some url) probes poll_interval max_recovery_sec sla_ms =
        ⟨true, some true, some lat, 0⟩) ∧
    (∀ (j : ℕ) (lat : ℚ), (∀ i, i < j → ¬ probeQualifies sla_ms (probes i)) →
      probes j = .ok 200 (some "ok") lat → lat ≤ (sla_ms : ℚ) →
      (j : ℤ) * poll_interval ≤ max_recovery_sec →
      _recover_phase (some url) probes poll_interval max_recovery_sec sla_ms =
        ⟨true, some true, some lat, j * poll_interval⟩) ∧
    ((∀ i, ¬ probeQualifies sla_ms (probes i)) →
      (_recover_phase (some url) probes poll_interval max_recovery_sec sla_ms).within_sla
          = some false ∧
      max_recovery_sec <
        (_recover_phase (some url) probes poll_interval
          max_recovery_sec sla_ms).seconds_waited ∧
      (_recover_phase (some url) probes poll_interval max_recovery_sec sla_ms).seconds_waited
          ≤ max_recovery_sec + poll_interval) := by
  have hphase : _recover_phase (some url) probes poll_interval max_recovery_sec sla_ms =
      recoverLoopAux probes poll_interval max_recovery_sec sla_ms
        (max_recovery_sec.toNat + 2) 0 0 none := by
    simp [_recover_phase, hurl]
  refine ⟨?_, ?_, ?_⟩
  · intro lat hpr hsla
    rw [hphase]
    have hq : probeQualifies sla_ms (probes (0 + 0)) := by
      simp only [Nat.add_zero]
      rw [hpr]; exact ⟨rfl, rfl, hsla⟩
    have := recoverLoopAux_first_qual probes poll_interval max_recovery_sec sla_ms hpi
      0 (max_recovery_sec.toNat + 2) 0 0 none (fun i hi => absurd hi (Nat.not_lt_zero i))
      hq (by push_cast; linarith) (Nat.succ_pos _)
    rw [this]
    simp [probeLat, hpr]
  · intro j lat hnone hpr hsla hbudget
    rw [hphase]
    have hq : probeQualifies sla_ms (probes (0 + j)) := by
      simp only [Nat.zero_add]
      rw [hpr]; exact ⟨rfl, rfl, hsla⟩
    have hjle : (j : ℤ) ≤ max_recovery_sec := by
      have : (j : ℤ) * 1 ≤ (j : ℤ) * poll_interval :=
        mul_le_mul_of_nonneg_left hpi (Int.natCast_nonneg j)
      linarith
    have hjfuel : j < max_recovery_sec.toNat + 2 := by omega
    have := recoverLoopAux_first_qual probes poll_interval max_recovery_sec sla_ms hpi
      j (max_recovery_sec.toNat + 2) 0 0 none
      (fun i hi => by simpa using hnone i hi)
      hq (by push_cast; linarith) hjfuel
    rw [this]
    simp only [Nat.zero_add, hpr, probeLat, zero_add]
  · intro hnone
    rw [hphase]
    have hfuel : max_recovery_sec < 0 + ((max_recovery_sec.toNat + 2 : ℕ) : ℤ) * poll_interval := by
      have h1 : ((max_recovery_sec.toNat + 2 : ℕ) : ℤ) * 1 ≤
          ((max_recovery_sec.toNat + 2 : ℕ) : ℤ) * poll_interval :=
        mul_le_mul_of_nonneg_left hpi (Int.natCast_nonneg _)
      have h2 : max_recovery_sec ≤ (max_recovery_sec.toNat : ℤ) := Int.self_le_toNat _
      push_cast at h1 ⊢
      linarith
    have := recoverLoopAux_timeout probes poll_interval max_recovery_sec sla_ms hpi hnone
      (max_recovery_sec.toNat + 2) 0 0 none hfuel
    exact ⟨this.1, (this.2.1 hmax).1, (this.2.1 hmax).2⟩

theorem recover_polling_contract_witness :
    _recover_phase (some "h") (fun _ => .ok 200 (some "ok") 100) 2 60 300 =
      ⟨true, some true, some 100, 0⟩ :=
  (recover_polling_contract (fun _ => .ok 200 (some "ok") 100) 2 60 300 "h"
    (by decide) (by norm_num) (by norm_num)).1 100 rfl (by norm_num)

theorem le_foldl_max_of_seed (xs : List ℚ) : ∀ (x y : ℚ), y ≤ x → y ≤ xs.foldl max x := by
  induction xs with
  | nil => intro x y h; simpa using h
  | cons z zs ih => intro x y h; exact ih (max x z) y (h.trans (le_max_left x z))

theorem le_foldl_max_of_mem (xs : List ℚ) : ∀ (x y : ℚ), y ∈ xs → y ≤ xs.foldl max x := by
  induction xs with
  | nil => intro x y h; cases h
  | cons z zs ih =>
    intro x y h
    rcases List.mem_cons.mp h with rfl | h2
    · exact le_foldl_max_of_seed zs (max x y) y (le_max_right x y)
    · exact ih (max x z) y h2

theorem foldl_max_mem (xs : List ℚ) : ∀ x : ℚ, xs.foldl max x ∈ x :: xs := by
  induction xs with
  | nil => intro x; simp
  | cons z zs ih =>
    intro x
    rw [List.foldl_cons]
    rcases List.mem_cons.mp (ih (max x z)) with heq | hmem
    · rw [heq]
      rcases max_choice x z with h1 | h1 <;> rw [h1] <;> simp
    · exact List.mem_cons_of_mem x (List.mem_cons_of_mem z hmem)

theorem foldl_min_of_seed (xs : List ℚ) : ∀ (x y : ℚ), x ≤ y → xs.foldl min x ≤ y := by
  induction xs with
  | nil => intro x y h; simpa using h
  | cons z zs ih => intro x y h; exact ih (min x z) y ((min_le_left x z).trans h)

theorem foldl_min_of_mem (xs : List ℚ) : ∀ (x y : ℚ), y ∈ xs → xs.foldl min x ≤ y := by
  induction xs with
  | nil => intro x y h; cases h
  | cons z zs ih =>
    intro x y h
    rcases List.mem_cons.mp h with rfl | h2
    · exact foldl_min_of_seed zs (min x y) y (min_le_right x y)
    · exact ih (min x z) y h2

theorem foldl_min_mem (xs : List ℚ) : ∀ x : ℚ, xs.foldl min x ∈ x :: xs := by
  induction xs with
  | nil => intro x; simp
  | cons z zs ih =>
    intro x
    rw [List.foldl_cons]
    rcases List.mem_cons.mp (ih (min x z)) with heq | hmem
    · rw [heq]
      rcases min_choice x z with h1 | h1 <;> rw [h1] <;> simp
    · exact List.mem_cons_of_mem x (List.mem_cons_of_mem z hmem)

theorem pyMax_mem (l : List ℚ) (h : l ≠ []) : pyMax l ∈ l := by
  match l with
  | x :: xs => exact foldl_max_mem xs x

theorem le_pyMax (l : List ℚ) (y : ℚ) (hy : y ∈ l) : y ≤ pyMax l := by
  match l with
  | x :: xs =>
    rcases List.mem_cons.mp hy with rfl | h2
    · exact le_foldl_max_of_seed xs y y le_rfl
    · exact le_foldl_max_of_mem xs x y h2

theorem pyMin_mem (l : List ℚ) (h : l ≠ []) : pyMin l ∈ l := by
  match l with
  | x :: xs => exact foldl_min_mem xs x

theorem pyMin_le (l : List ℚ) (y : ℚ) (hy : y ∈ l) : pyMin l ≤ y := by
  match l with
  | x :: xs =>
    rcases List.mem_cons.mp hy with rfl | h2
    · exact foldl_min_of_seed xs y y le_rfl
    · exact foldl_min_of_mem xs x y h2

theorem pyRound_intCast (m : ℤ) : pyRound (m : ℚ) = m := by
  norm_num [pyRound, Int.floor_intCast]

theorem _percentile_eq (l : List ℚ) (p : ℚ) (h : l ≠ []) :
    _percentile l p =
      (l.insertionSort (· ≤ ·)).getD
        (max 0 (min ((l.length : ℤ) - 1) (pyRound (p * ((l.length : ℤ) - 1))))).toNat 0 := by
  obtain ⟨v, vs, rfl⟩ := List.exists_cons_of_ne_nil h
  rfl

theorem sorted_getD_last (l : List ℚ) (h : l ≠ []) :
    (l.insertionSort (· ≤ ·)).getD (l.length - 1) 0 = pyMax l := by
  have hperm : (l.insertionSort (· ≤ ·)).Perm l := l.perm_insertionSort _
  have hsorted : (l.insertionSort (· ≤ ·)).Sorted (· ≤ ·) := l.sorted_insertionSort _
  have hlen : (l.insertionSort (· ≤ ·)).length = l.length := hperm.length_eq
  have hlpos : 0 < l.length := List.length_pos.mpr h
  have hlast : l.length - 1 < (l.insertionSort (· ≤ ·)).length := by omega
  rw [List.getD_eq_get _ _ hlast]
  apply le_antisymm
  · exact le_pyMax l _ (hperm.mem_iff.mp (List.get_mem _ _ _))
  · obtain ⟨i, hi⟩ := List.get_of_mem (hperm.mem_iff.mpr (pyMax_mem l h))
    rw [← hi]
    refine hsorted.rel_get_of_le ?_
    rw [Fin.le_def]
    show (i : ℕ) ≤ l.length - 1
    have hi2 := i.2
    omega

theorem sorted_getD_zero (l : List ℚ) (h : l ≠ []) :
    (l.insertionSort (· ≤ ·)).getD 0 0 = pyMin l := by
  have hperm : (l.insertionSort (· ≤ ·)).Perm l := l.perm_insertionSort _
  have hsorted : (l.insertionSort (· ≤ ·)).Sorted (· ≤ ·) := l.sorted_insertionSort _
  have hlen : (l.insertionSort (· ≤ ·)).length = l.length := hperm.length_eq
  have hlpos : 0 < l.length := List.length_pos.mpr h
  have h0 : 0 < (l.insertionSort (· ≤ ·)).length := by omega
  rw [List.getD_eq_get _ _ h0]
  apply le_antisymm
  · obtain ⟨i, hi⟩ := List.get_of_mem (hperm.mem_iff.mpr (pyMin_mem l h))
    rw [← hi]
    refine hsorted.rel_get_of_le ?_
    rw [Fin.le_def]
    show (0 : ℕ) ≤ (i : ℕ)
    exact Nat.zero_le _
  · exact pyMin_le l _ (hperm.mem_iff.mp (List.get_mem _ _ _))

/-- C4 counterexample.  The source `_percentile` does not linearly
interpolate: on `[0, 10]` at rank `1/2` it returns the nearest-rank order
statistic `0` (Python `round(0.5) = 0`), while the interpolated order
statistic the spec describes is `5`. -/
theorem percentile_not_interpolating :
    _percentile [0, 10] (1/2) = 0 ∧ percentile_interp [0, 10] (1/2) = 5 ∧
    _percentile [0, 10] (1/2) ≠ percentile_interp [0, 10] (1/2) := by
  refine ⟨?_, ?_, ?_⟩
  · norm_num [_percentile, pyRound, List.insertionSort, List.orderedInsert]
  · norm_num [percentile_interp, List.insertionSort, List.orderedInsert]
  · norm_num [_percentile, percentile_interp, pyRound, List.insertionSort, List.orderedInsert]

/-- C4 (amended).  The percentile function computes a nearest-rank order
statistic without interpolation: for non-empty input the result is a member
of the input list, namely the sorted value at index
`round(p * (n - 1))` (Python banker rounding) clamped into `[0, n - 1]`;
and it returns `0` for empty input. -/
theorem percentile_nearest_rank (values : List ℚ) (p : ℚ) (hne : values ≠ []) :
    _percentile values p ∈ values ∧
    (∃ k : ℕ, (k : ℤ) = max 0 (min ((values.length : ℤ) - 1)
        (pyRound (p * ((values.length : ℤ) - 1)))) ∧
      k < values.length ∧
      _percentile values p = (values.insertionSort (· ≤ ·)).getD k 0) ∧
    (∀ q : ℚ, _percentile [] q = 0) := by
  have hlpos : 0 < values.length := List.length_pos.mpr hne
  have h0 : (0 : ℤ) ≤ max 0 (min ((values.length : ℤ) - 1)
      (pyRound (p * ((values.length : ℤ) - 1)))) := le_max_left 0 _
  have hub : max 0 (min ((values.length : ℤ) - 1)
      (pyRound (p * ((values.length : ℤ) - 1)))) ≤ (values.length : ℤ) - 1 :=
    max_le (by omega) (min_le_left _ _)
  have hklt : (max 0 (min ((values.length : ℤ) - 1)
      (pyRound (p * ((values.length : ℤ) - 1))))).toNat < values.length := by omega
  have hgetd := _percentile_eq values p hne
  have hlen : (values.insertionSort (· ≤ ·)).length = values.length :=
    (values.perm_insertionSort _).length_eq
  refine ⟨?_, ⟨_, by omega, hklt, hgetd⟩, fun q => rfl⟩
  rw [hgetd, List.getD_eq_get _ _ (by omega)]
  exact (values.perm_insertionSort _).mem_iff.mp (List.get_mem _ _ _)

theorem percentile_nearest_rank_witness :
    _percentile [0, 10] (1/2) ∈ ([0, 10] : List ℚ) :=
  (percentile_nearest_rank [0, 10] (1/2) (List.cons_ne_nil _ _)).1

/-- C5.  Percentile boundary identities: for every non-empty sample set the
percentile at the top of the scale (`p = 1` as the callers express it, and
also the literal `p = 100`) is the maximum and the percentile at rank `0` is
the minimum. -/
theorem percentile_boundary (S : List ℚ) (hne : S ≠ []) :
    _percentile S 1 = pyMax S ∧ _percentile S 100 = pyMax S ∧ _percentile S 0 = pyMin S := by
  have hlpos : 0 < S.length := List.length_pos.mpr hne
  have hn1 : (0 : ℤ) ≤ (S.length : ℤ) - 1 := by omega
  have htoNat : ((S.length : ℤ) - 1).toNat = S.length - 1 := by omega
  have hc : (((S.length : ℤ) : ℚ)) - 1 = (((S.length : ℤ) - 1 : ℤ) : ℚ) := by push_cast; ring
  refine ⟨?_, ?_, ?_⟩
  · rw [_percentile_eq S 1 hne, one_mul, hc, pyRound_intCast, min_self, max_eq_right hn1,
      htoNat, sorted_getD_last S hne]
  · rw [_percentile_eq S 100 hne]
    have hcast : (100 : ℚ) * ((((S.length : ℤ) : ℚ)) - 1) =
        ((100 * ((S.length : ℤ) - 1) : ℤ) : ℚ) := by push_cast; ring
    rw [hcast, pyRound_intCast, min_eq_left (by linarith), max_eq_right hn1,
      htoNat, sorted_getD_last S hne]
  · rw [_percentile_eq S 0 hne]
    have hcast : (0 : ℚ) * ((((S.length : ℤ) : ℚ)) - 1) = ((0 : ℤ) : ℚ) := by push_cast; ring
    rw [hcast, pyRound_intCast, min_eq_right hn1, max_self]
    exact sorted_getD_zero S hne

theorem percentile_boundary_witness :
    _percentile [3, 1, 2] 1 = 3 ∧ _percentile [3, 1, 2] 100 = 3 ∧
    _percentile [3, 1, 2] 0 = 1 := by
  have h := percentile_boundary [3, 1, 2] (List.cons_ne_nil _ _)
  refine ⟨?_, ?_, ?_⟩
  · rw [h.1]; norm_num [pyMax]
  · rw [h.2.1]; norm_num [pyMax]
  · rw [h.2.2]; norm_num [pyMin]

theorem push_length_le (series_limit : ℕ) (arr : List ℚ) (v : ℚ) :
    (push series_limit arr v).length ≤ series_limit := by
  unfold push
  dsimp only
  split
  · rw [List.length_drop]
    omega
  · rename_i hle
    simp only [List.length_append, List.length_cons, List.length_nil] at hle ⊢
    omega

theorem push_suffix (series_limit : ℕ) (arr : List ℚ) (v : ℚ) :
    (push series_limit arr v).IsSuffix (arr ++ [v]) := by
  unfold push
  dsimp only
  split
  · exact List.drop_suffix _ _
  · exact List.suffix_refl _

theorem foldl_push_le (series_limit : ℕ) :
    ∀ (vs arr : List ℚ), arr.length ≤ series_limit →
      (vs.foldl (push series_limit) arr).length ≤ series_limit := by
  intro vs
  induction vs with
  | nil => intro arr h; simpa using h
  | cons v vs ih =>
    intro arr _
    rw [List.foldl_cons]
    exact ih _ (push_length_le _ _ _)

/-- C6.  Ring-buffer cap invariant: after every append the series length is at
most `series_limit`; the kept entries are a suffix of the appended sequence,
so the evicted entries are exactly the oldest ones; and after any non-empty
run of further appends the length is still within the cap, however many ticks
the sampler runs. -/
theorem series_cap_invariant (series_limit : ℕ) :
    (∀ (arr : List ℚ) (v : ℚ), (push series_limit arr v).length ≤ series_limit) ∧
    (∀ (arr : List ℚ) (v : ℚ), (push series_limit arr v).IsSuffix (arr ++ [v])) ∧
    (∀ (arr : List ℚ) (v : ℚ) (vs : List ℚ),
      ((v :: vs).foldl (push series_limit) arr).length ≤ series_limit) := by
  refine ⟨push_length_le series_limit, push_suffix series_limit, ?_⟩
  intro arr v vs
  rw [List.foldl_cons]
  exact foldl_push_le series_limit vs _ (push_length_le _ _ _)

/-- C7.  Request shooter totality: `_shoot_once` is a total function of the
transport outcome — a completed exchange yields
`(code ∈ success_statuses, latency, code, "")` with success exactly when the
status code is configured as a success, any transport/timeout exception
yields `(false, elapsed, 0, message)`, and mapping it over a whole batch of
outcomes always produces exactly one request outcome per shot (no exception
can abort the load loop). -/
theorem shoot_once_totality (success_statuses : List ℕ) (t : TransportOutcome) :
    (∀ (code : ℕ) (lat : ℚ), t = .response code lat →
      _shoot_once success_statuses t = ⟨decide (code ∈ success_statuses), lat, code, ""⟩ ∧
      ((_shoot_once success_statuses t).succeeded = true ↔ code ∈ success_statuses)) ∧
    (∀ (lat : ℚ) (msg : String), t = .exn lat msg →
      _shoot_once success_statuses t = ⟨false, lat, 0, msg⟩) ∧
    (∀ outcomes : List TransportOutcome,
      (outcomes.map (_shoot_once success_statuses)).length = outcomes.length) := by
  refine ⟨?_, ?_, fun outcomes => List.length_map _ _⟩
  · rintro code lat rfl
    exact ⟨rfl, by simp [_shoot_once]⟩
  · rintro lat msg rfl
    rfl

theorem shoot_once_totality_witness :
    _shoot_once [200] (.exn 37 "timeout") = ⟨false, 37, 0, "timeout"⟩ :=
  (shoot_once_totality [200] (.exn 37 "timeout")).2.1 37 "timeout" rfl

/-- C8 counterexample.  On a tick where the process-memory read raises but the
system-CPU read succeeds, the source appends NOTHING that tick — the whole
loop body is a single try/except and every read precedes every push — whereas
the claim demands that the successfully-read system-CPU point still be
appended.  Here the tick leaves the series map unchanged (system CPU series
stays empty) although its system-CPU read succeeded with value 5. -/
theorem sample_tick_not_per_metric :
    sampleTick 10 ⟨.ok 5, true, .ok 1, .error "read failed", .ok 7, .ok (2, 3), true⟩
      emptySeries = emptySeries ∧
    (⟨.ok 5, true, .ok 1, .error "read failed", .ok 7, .ok (2, 3), true⟩ : TickReads).sys_cpu
      = .ok 5 ∧
    emptySeries.system_cpu_pct = [] :=
  ⟨rfl, rfl, rfl⟩

theorem sampleTick_of_fail (series_limit : ℕ) (r : TickReads) (out : SeriesMap)
    (h : tickReadFails r = true) : sampleTick series_limit r out = out := by
  obtain ⟨sys, prun, pc, pm, pt, net, hln⟩ := r
  cases sys <;> cases prun <;> cases pc <;> cases pm <;> cases pt <;> cases net <;>
    first
      | rfl
      | simp_all [tickReadFails, isErr]

theorem sampleTick_of_no_fail (series_limit : ℕ) (r : TickReads) (out : SeriesMap)
    (h : tickReadFails r = false) :
    ∃ sysv, r.sys_cpu = .ok sysv ∧
      (sampleTick series_limit r out).system_cpu_pct =
        push series_limit out.system_cpu_pct sysv ∧
      (r.proc_running = false →
        (sampleTick series_limit r out).process_cpu_pct = out.process_cpu_pct ∧
        (sampleTick series_limit r out).process_mem_mb = out.process_mem_mb ∧
        (sampleTick series_limit r out).process_threads = out.process_threads) ∧
      (r.have_last_net = false →
        (sampleTick series_limit r out).net_sent_kb = out.net_sent_kb ∧
        (sampleTick series_limit r out).net_recv_kb = out.net_recv_kb) := by
  obtain ⟨sys, prun, pc, pm, pt, net, hln⟩ := r
  cases sys <;> cases prun <;> cases pc <;> cases pm <;> cases pt <;>
    rcases net with e | ⟨ns, nr⟩ <;> cases hln <;>
    simp_all [tickReadFails, isErr, sampleTick, pushOpt]

/-- C8 (amended).  Whole-tick error degradation: when any read the tick
performs raises, the ENTIRE tick is skipped (no series is appended, not even
for metrics whose reads succeeded); when no read raises, the system-CPU point
is appended, while metrics that are merely unavailable without raising (an
unresolved process, missing previous network counters) are skipped
individually with all other series still appended. -/
theorem sample_tick_degradation (series_limit : ℕ) (r : TickReads) (out : SeriesMap) :
    (tickReadFails r = true → sampleTick series_limit r out = out) ∧
    (tickReadFails r = false →
      ∃ sysv, r.sys_cpu = .ok sysv ∧
        (sampleTick series_limit r out).system_cpu_pct =
          push series_limit out.system_cpu_pct sysv ∧
        (r.proc_running = false →
          (sampleTick series_limit r out).process_cpu_pct = out.process_cpu_pct ∧
          (sampleTick series_limit r out).process_mem_mb = out.process_mem_mb ∧
          (sampleTick series_limit r out).process_threads = out.process_threads) ∧
        (r.have_last_net = false →
          (sampleTick series_limit r out).net_sent_kb = out.net_sent_kb ∧
          (sampleTick series_limit r out).net_recv_kb = out.net_recv_kb)) :=
  ⟨sampleTick_of_fail series_limit r out, sampleTick_of_no_fail series_limit r out⟩

theorem sample_tick_degradation_witness :
    sampleTick 10 ⟨.ok 5, true, .ok 1, .error "boom", .ok 7, .ok (2, 3), true⟩
      emptySeries = emptySeries :=
  (sample_tick_degradation 10
    ⟨.ok 5, true, .ok 1, .error "boom", .ok 7, .ok (2, 3), true⟩ emptySeries).1 rfl

theorem stressLoopAux_nil_of_nonpos_rps (rps : ℤ) (hrps : rps ≤ 0)
    (shot : ℕ → ℕ → Bool × ℚ) (clock : ℕ → ℚ) (endTime : ℚ) :
    ∀ (fuel i : ℕ), stressLoopAux rps shot clock endTime fuel i = [] := by
  intro fuel
  induction fuel with
  | zero => intro i; rfl
  | succ f ih =>
    intro i
    simp only [stressLoopAux]
    rw [Int.toNat_of_nonpos hrps]
    simp only [List.range_zero, List.map_nil, List.nil_append]
    split
    · exact ih (i+1)
    · rfl

/-- C9 counterexample.  A configuration with a valid mode but `rps = 0` (and
zero remaining duration) is not rejected by any up-front validation — the
only validated field is `mode` — and the stress phase then completes with
zero shots, `error_rate = 0.0` and a normal PASS verdict under the default
thresholds (`sla_ms_p95 = 0`, `max_error_rate = 1.0`), instead of the
explicit rejection the claim requires before any phase starts. -/
theorem config_not_validated :
    check_mode_error (some "stress") = none ∧
    stressLoopAux 0 (fun _ _ => (true, 1)) (fun n => (n : ℚ)) 0 5 0 = [] ∧
    (stressMetricsOf []).total = 0 ∧
    (stressMetricsOf []).error_rate = 0 ∧
    emit_stress_status (stressMetricsOf []) 0 1 = "PASS" := by
  refine ⟨by simp [check_mode_error], ?_, rfl, rfl, ?_⟩
  · exact stressLoopAux_nil_of_nonpos_rps 0 le_rfl _ _ _ 5 0
  · norm_num [emit_stress_status, stressMetricsOf, errorsOf]

/-- C9 (amended).  Configuration handling as implemented: only `mode` is
validated before the phase (rejected exactly when it is neither `stress` nor
`load`); a non-positive `duration_sec` makes the timed loop exit at its first
clock check with no shots, a non-positive `rps` schedules zero shots per
iteration so the loop returns no outcomes, and either way the run ends in a
normal verdict over `total = 0`, `error_rate = 0.0` (PASS under the default
thresholds) rather than an explicit rejection naming the field. -/
theorem config_validation_actual :
    (∀ mode : Option String, check_mode_error mode = none ↔
      (mode = some "stress" ∨ mode = some "load")) ∧
    (∀ (rps duration_sec : ℤ) (shot : ℕ → ℕ → Bool × ℚ) (clock : ℕ → ℚ) (start : ℚ)
        (fuel : ℕ), duration_sec ≤ 0 → start ≤ clock 0 →
      stressLoopAux rps shot clock (start + (duration_sec : ℚ)) fuel 0 = []) ∧
    (∀ (rps : ℤ) (shot : ℕ → ℕ → Bool × ℚ) (clock : ℕ → ℚ) (endTime : ℚ) (fuel i : ℕ),
      rps ≤ 0 → stressLoopAux rps shot clock endTime fuel i = []) ∧
    (stressMetricsOf []).error_rate = 0 ∧
    emit_stress_status (stressMetricsOf []) 0 1 = "PASS" := by
  refine ⟨?_, ?_, ?_, rfl, ?_⟩
  · intro mode
    unfold check_mode_error
    split
    · rename_i h; simpa using h
    · rename_i h; simp [h]
  · intro rps duration_sec shot clock start fuel hdur hstart
    cases fuel with
    | zero => rfl
    | succ f =>
      simp only [stressLoopAux]
      have hd : (duration_sec : ℚ) ≤ 0 := by exact_mod_cast hdur
      rw [if_neg (not_lt.mpr (by linarith))]
  · intro rps shot clock endTime fuel i hrps
    exact stressLoopAux_nil_of_nonpos_rps rps hrps shot clock endTime fuel i
  · norm_num [emit_stress_status, stressMetricsOf, errorsOf]

theorem config_validation_actual_witness :
    stressLoopAux 0 (fun _ _ => (true, 1)) (fun n => (n : ℚ)) 7 3 0 = [] :=
  config_validation_actual.2.2.1 0 (fun _ _ => (true, 1)) (fun n => (n : ℚ)) 7 3 0 le_rfl

theorem stressLoopAux_length_dvd (rps : ℤ) (shot : ℕ → ℕ → Bool × ℚ) (clock : ℕ → ℚ)
    (endTime : ℚ) : ∀ (fuel i : ℕ),
    rps.toNat ∣ (stressLoopAux rps shot clock endTime fuel i).length := by
  intro fuel
  induction fuel with
  | zero => intro i; simp [stressLoopAux]
  | succ f ih =>
    intro i
    simp only [stressLoopAux]
    split
    · rw [List.length_append, List.length_map, List.length_range]
      exact Nat.dvd_add (dvd_refl _) (ih (i+1))
    · simp

theorem errorsOf_le_length (outcomes : List (Bool × ℚ)) : errorsOf outcomes ≤ outcomes.length :=
  List.length_filter_le _ _

/-- C10.  Stress aggregation bookkeeping: the number of gathered outcomes is
a multiple of `rps` (each loop iteration schedules and collects exactly `rps`
shots), the recorded total equals the number of latency samples, errors never
exceed the total, the error rate is `errors / total` for a nonzero total and
`0.0` otherwise, and it always lies in `[0, 1]`. -/
theorem stress_bookkeeping (rps : ℤ) (hrps : 1 ≤ rps) (shot : ℕ → ℕ → Bool × ℚ)
    (clock : ℕ → ℚ) (endTime : ℚ) (fuel i : ℕ) :
    rps.toNat ∣ (stressMetricsOf (stressLoopAux rps shot clock endTime fuel i)).total ∧
    ∀ outcomes : List (Bool × ℚ),
      (stressMetricsOf outcomes).total = (outcomes.map Prod.snd).length ∧
      (stressMetricsOf outcomes).errors ≤ (stressMetricsOf outcomes).total ∧
      ((stressMetricsOf outcomes).total = 0 → (stressMetricsOf outcomes).error_rate = 0) ∧
      (0 < (stressMetricsOf outcomes).total →
        (stressMetricsOf outcomes).error_rate =
          ((stressMetricsOf outcomes).errors : ℚ) / ((stressMetricsOf outcomes).total : ℚ)) ∧
      0 ≤ (stressMetricsOf outcomes).error_rate ∧
      (stressMetricsOf outcomes).error_rate ≤ 1 := by
  constructor
  · exact stressLoopAux_length_dvd rps shot clock endTime fuel i
  · intro outcomes
    have htot : (stressMetricsOf outcomes).total = outcomes.length := rfl
    have herr : (stressMetricsOf outcomes).errors = errorsOf outcomes := rfl
    have hrate : (stressMetricsOf outcomes).error_rate =
        if outcomes.length = 0 then 0
        else (errorsOf outcomes : ℚ) / (outcomes.length : ℚ) := rfl
    refine ⟨by rw [htot, List.length_map], ?_, ?_, ?_, ?_, ?_⟩
    · rw [htot, herr]; exact errorsOf_le_length outcomes
    · intro h
      rw [htot] at h
      rw [hrate, if_pos h]
    · intro h
      rw [htot] at h
      rw [hrate, if_neg (by omega), htot, herr]
    · rw [hrate]
      split
      · norm_num
      · exact div_nonneg (by positivity) (by positivity)
    · rw [hrate]
      split
      · norm_num
      · rename_i h
        have hpos : (0 : ℚ) < (outcomes.length : ℚ) := by
          have h2 : 0 < outcomes.length := Nat.pos_of_ne_zero h
          exact_mod_cast h2
        rw [div_le_one hpos]
        exact_mod_cast errorsOf_le_length outcomes

theorem stress_bookkeeping_witness :
    (2 : ℤ).toNat ∣ (stressMetricsOf (stressLoopAux 2 (fun _ _ => (true, 1))
      (fun n => (n : ℚ)) 1 3 0)).total :=
  (stress_bookkeeping 2 (by norm_num) (fun _ _ => (true, 1)) (fun n => (n : ℚ)) 1 3 0).1

end Reliability
